import Mathlib

/-!
Shallow embedding of the issue-enrichment and caching pipeline of the
ossca-status dashboard: the function getIssues in src/app/page.tsx
(cache lookup, per-username fetch with try/catch, per-item enrichment
from reviews / comments / pull-request details, cache store), together
with the module-level issueCache and CACHE_DURATION.

Remote calls are modelled by an oracle structure Api whose methods
return Except values: an error value models a thrown/rejected request.
Wall-clock reads (Date.now()) are passed in as explicit Int parameters.
-/

/-- Output record built by the pipeline (interface Issue in page.tsx).
approvedBy is Option String for the TS type string | null. -/
structure Issue where
  repo : String
  number : Nat
  title : String
  html_url : String
  approved : Bool
  approvedBy : Option String
  creator : String
  merged : Bool
deriving DecidableEq

/-- An item of the list-issues response: the fields getIssues reads.
pull_request is true when the pull_request marker object is present;
user is the creator login, none when the API returns user as null. -/
structure ApiIssue where
  number : Nat
  title : String
  html_url : String
  user : Option String
  pull_request : Bool
deriving DecidableEq

/-- A review of the list-reviews response: the fields getIssues reads. -/
structure Review where
  state : String
  user : Option String
deriving DecidableEq

/-- A comment of the list-comments response: the fields getIssues reads.
body is none when the comment body is absent. -/
structure Comment where
  body : Option String
  user : Option String
deriving DecidableEq

/-- The pull-request detail record: the field getIssues reads. -/
structure PrDetails where
  merged : Bool
deriving DecidableEq

/-- Oracle for the four remote endpoints getIssues calls. Each method
takes the repo plus the request-specific argument; an error value
models a request that throws. -/
structure Api where
  listIssues : String → String → Except String (List ApiIssue)
  listReviews : String → Nat → Except String (List Review)
  prDetails : String → Nat → Except String PrDetails
  listComments : String → Nat → Except String (List Comment)

/-- JS fallback `x?.login || "unknown"`: undefined and the empty string
are falsy, so both become "unknown". -/
def loginOrUnknown : Option String → String
  | none => "unknown"
  | some s => if s = "" then "unknown" else s

/-- JS String.prototype.toLowerCase, character by character. -/
def lowerString (s : String) : String := ⟨s.data.map Char.toLower⟩

/-- Does the second character list start with the first? -/
def startsWithChars : List Char → List Char → Bool
  | [], _ => true
  | _ :: _, [] => false
  | c :: cs, d :: ds => c == d && startsWithChars cs ds

/-- Does the character list contain the needle as a contiguous run? -/
def charListContains (needle : List Char) : List Char → Bool
  | [] => needle.isEmpty
  | d :: ds => startsWithChars needle (d :: ds) || charListContains needle ds

/-- JS String.prototype.includes: hay contains needle as a substring. -/
def strContains (hay needle : String) : Bool :=
  charListContains needle.data hay.data

/-- The comment test of getIssues:
`comment.body?.toLowerCase().includes("approve")` — an absent body is
falsy, hence treated as a non-match. -/
def commentMatches (c : Comment) : Bool :=
  match c.body with
  | some b => strContains (lowerString b) "approve"
  | none => false

/-- The review scan of getIssues: starting from (false, null), the first
review with state "APPROVED" sets the pair and breaks. -/
def findApprovedReview : List Review → Bool × Option String
  | [] => (false, none)
  | r :: rest =>
    if r.state = "APPROVED" then (true, some (loginOrUnknown r.user))
    else findApprovedReview rest

/-- The comment scan of getIssues: starting from (false, null), the
first comment whose body matches sets the pair and breaks. -/
def findApprovalComment : List Comment → Bool × Option String
  | [] => (false, none)
  | c :: rest =>
    if commentMatches c then (true, some (loginOrUnknown c.user))
    else findApprovalComment rest

/-- The body of the inner `for (const issue of response.data)` loop of
getIssues for one item: for a pull request, fetch reviews, scan them,
fetch the detail record for merged; for a plain issue, fetch comments
and scan them; then build the record. An error of any of the awaited
requests propagates (to the per-username catch). -/
def processItem (api : Api) (repo : String) (it : ApiIssue) :
    Except String Issue :=
  if it.pull_request then
    match api.listReviews repo it.number with
    | .error e => .error e
    | .ok revs =>
      let ap := findApprovedReview revs
      match api.prDetails repo it.number with
      | .error e => .error e
      | .ok det =>
        .ok { repo := repo, number := it.number, title := it.title,
              html_url := it.html_url, approved := ap.1, approvedBy := ap.2,
              creator := loginOrUnknown it.user, merged := det.merged }
  else
    match api.listComments repo it.number with
    | .error e => .error e
    | .ok comms =>
      let ap := findApprovalComment comms
      .ok { repo := repo, number := it.number, title := it.title,
            html_url := it.html_url, approved := ap.1, approvedBy := ap.2,
            creator := loginOrUnknown it.user, merged := false }

/-- The inner item loop with the surrounding mutable `issues` array as
accumulator: each successful record is pushed; the first error aborts
the rest of this username's items (the catch sits outside this loop),
leaving the records pushed so far in place. -/
def pushItems (api : Api) (repo : String) (acc : List Issue) :
    List ApiIssue → List Issue
  | [] => acc
  | it :: rest =>
    match processItem api repo it with
    | .error _ => acc
    | .ok r => pushItems api repo (acc ++ [r]) rest

/-- The try/catch body for one username: fetch the username's issue
list; on error the catch logs and leaves the accumulator unchanged;
otherwise run the item loop (whose own errors also land in this catch,
keeping the records pushed before the error). -/
def processUsername (api : Api) (repo : String) (acc : List Issue)
    (username : String) : List Issue :=
  match api.listIssues repo username with
  | .error _ => acc
  | .ok items => pushItems api repo acc items

/-- The outer `for (const username of usernames)` loop of getIssues. -/
def usernamesLoop (api : Api) (repo : String) (acc : List Issue) :
    List String → List Issue
  | [] => acc
  | u :: us => usernamesLoop api repo (processUsername api repo acc u) us

/-- The fetch phase of getIssues (everything between the cache check
and the cache store), starting from an empty issues array. -/
def fetchIssues (api : Api) (repo : String) (usernames : List String) :
    List Issue :=
  usernamesLoop api repo [] usernames

/-- The records getIssues produces for one username in isolation:
nothing if the issue-list fetch errors, otherwise the item loop run
from an empty accumulator. -/
def enrichItems (api : Api) (repo : String) : List ApiIssue → List Issue
  | [] => []
  | it :: rest =>
    match processItem api repo it with
    | .error _ => []
    | .ok r => r :: enrichItems api repo rest

/-- One username's contribution to the result of fetchIssues. -/
def userRecords (api : Api) (repo : String) (username : String) :
    List Issue :=
  match api.listIssues repo username with
  | .error _ => []
  | .ok items => enrichItems api repo items

/-- interface CacheEntry of page.tsx. -/
structure CacheEntry where
  data : List Issue
  timestamp : Int
deriving DecidableEq

/-- The module-level issueCache object, modelled as an association list
where an assignment prepends (the newest binding shadows older ones). -/
abbrev Cache := List (String × CacheEntry)

/-- CACHE_DURATION = 5 * 1000 milliseconds. -/
def CACHE_DURATION : Int := 5 * 1000

/-- JS Array.prototype.join(",") on the usernames list. -/
def joinComma : List String → String
  | [] => ""
  | [u] => u
  | u :: v :: rest => u ++ "," ++ joinComma (v :: rest)

/-- The cache key of getIssues: `${repo}-${usernames.join(",")}`. -/
def cacheKey (repo : String) (usernames : List String) : String :=
  repo ++ "-" ++ joinComma usernames

/-- issueCache[key] lookup. -/
def cacheFind (c : Cache) (k : String) : Option CacheEntry :=
  (c.find? (fun p => p.1 == k)).map Prod.snd

/-- issueCache[key] = entry. -/
def cachePut (c : Cache) (k : String) (e : CacheEntry) : Cache :=
  (k, e) :: c

/-- getIssues of page.tsx as a state-passing function over the cache:
compute the key; on a fresh hit return the cached data and leave the
cache unchanged; otherwise run the fetch phase and store its result
with the store-time clock reading nowPut. now is the Date.now() of the
freshness check, nowPut the Date.now() of the store. -/
def getIssues (api : Api) (cache : Cache) (now nowPut : Int)
    (repo : String) (usernames : List String) : List Issue × Cache :=
  let key := cacheKey repo usernames
  match cacheFind cache key with
  | some entry =>
    if now - entry.timestamp < CACHE_DURATION then
      (entry.data, cache)
    else
      let issues := fetchIssues api repo usernames
      (issues, cachePut cache key ⟨issues, nowPut⟩)
  | none =>
    let issues := fetchIssues api repo usernames
    (issues, cachePut cache key ⟨issues, nowPut⟩)

/-- Extract the value of a successful Except. -/
def exceptOk : Except String Issue → Option Issue
  | .ok r => some r
  | .error _ => none

/-- The username contains no comma character. -/
def noComma (s : String) : Bool := decide (',' ∉ s.data)

/-- Character-list version of the comma join. -/
def joinCharList : List (List Char) → List Char
  | [] => []
  | [x] => x
  | x :: y :: rest => x ++ ',' :: joinCharList (y :: rest)

/-- Test oracle: every endpoint fails. -/
def apiFail : Api where
  listIssues := fun _ _ => .error "fail"
  listReviews := fun _ _ => .error "fail"
  prDetails := fun _ _ => .error "fail"
  listComments := fun _ _ => .error "fail"

/-- Test oracle: one plain issue per username, with one approving
comment by c. -/
def apiGood : Api where
  listIssues := fun _ _ => .ok [⟨1, "t", "h", some "u", false⟩]
  listReviews := fun _ _ => .error "fail"
  prDetails := fun _ _ => .error "fail"
  listComments := fun _ _ => .ok [⟨some "approve", some "c"⟩]

/-- Test oracle: one pull request with reviews COMMENTED by C, APPROVED
by A, APPROVED by B, whose detail record says merged. -/
def apiPr : Api where
  listIssues := fun _ _ => .ok [⟨7, "t7", "h7", some "u", true⟩]
  listReviews := fun _ _ =>
    .ok [⟨"COMMENTED", some "C"⟩, ⟨"APPROVED", some "A"⟩,
         ⟨"APPROVED", some "B"⟩]
  prDetails := fun _ _ => .ok ⟨true⟩
  listComments := fun _ _ => .ok []

/-- Test oracle: username u1 has two plain issues and the comment fetch
of the second one throws; username u2 has one plain issue; no comment
body matches. -/
def apiPartial : Api where
  listIssues := fun _ u =>
    if u = "u1" then
      .ok [⟨1, "t1", "h1", some "u1", false⟩,
           ⟨2, "t2", "h2", some "u1", false⟩]
    else
      .ok [⟨3, "t3", "h3", some "u2", false⟩]
  listReviews := fun _ _ => .error "fail"
  prDetails := fun _ _ => .error "fail"
  listComments := fun _ n =>
    if n = 2 then .error "boom" else .ok [⟨some "nice", some "c"⟩]

/-- A sample stored record for the cache theorems. -/
def sampleIssue : Issue :=
  ⟨"zeppelin", 1, "t", "h", true, some "alice", "bob", false⟩

/-! Structural lemmas relating the accumulator-style loops to the
per-username decomposition. -/

theorem pushItems_eq (api : Api) (repo : String) (items : List ApiIssue) :
    ∀ acc, pushItems api repo acc items = acc ++ enrichItems api repo items := by
  induction items with
  | nil => intro acc; simp [pushItems, enrichItems]
  | cons it rest ih =>
    intro acc
    simp only [pushItems, enrichItems]
    cases processItem api repo it with
    | error e => simp
    | ok r => simp [ih]

theorem processUsername_eq (api : Api) (repo : String) (acc : List Issue)
    (u : String) :
    processUsername api repo acc u = acc ++ userRecords api repo u := by
  unfold processUsername userRecords
  cases api.listIssues repo u with
  | error e => simp
  | ok items => exact pushItems_eq api repo items acc

theorem usernamesLoop_eq (api : Api) (repo : String) (us : List String) :
    ∀ acc, usernamesLoop api repo acc us =
      acc ++ (us.map (userRecords api repo)).flatten := by
  induction us with
  | nil => intro acc; simp [usernamesLoop]
  | cons u rest ih =>
    intro acc
    simp only [usernamesLoop]
    rw [ih, processUsername_eq]
    simp

theorem fetchIssues_eq (api : Api) (repo : String) (us : List String) :
    fetchIssues api repo us = (us.map (userRecords api repo)).flatten := by
  unfold fetchIssues
  rw [usernamesLoop_eq]
  simp

/-! Lemmas about the two scans and the per-item enrichment. -/

theorem findApprovedReview_fst_iff (l : List Review) :
    ((findApprovedReview l).1 = true ↔ (findApprovedReview l).2 ≠ none) := by
  induction l with
  | nil => simp [findApprovedReview]
  | cons r rest ih =>
    simp only [findApprovedReview]
    by_cases h : r.state = "APPROVED"
    · simp [h]
    · simp [h, ih]

theorem findApprovalComment_fst_iff (l : List Comment) :
    ((findApprovalComment l).1 = true ↔ (findApprovalComment l).2 ≠ none) := by
  induction l with
  | nil => simp [findApprovalComment]
  | cons c rest ih =>
    simp only [findApprovalComment]
    by_cases h : commentMatches c
    · simp [h]
    · simp [h, ih]

theorem processItem_ok_inv (api : Api) (repo : String) (it : ApiIssue)
    (rec : Issue) (h : processItem api repo it = .ok rec) :
    (rec.approved = true ↔ rec.approvedBy ≠ none) := by
  unfold processItem at h
  by_cases hpr : it.pull_request <;> simp only [hpr, if_true, if_false] at h
  · cases hrev : api.listReviews repo it.number with
    | error e => rw [hrev] at h; exact absurd h (by simp)
    | ok revs =>
      rw [hrev] at h
      cases hdet : api.prDetails repo it.number with
      | error e => rw [hdet] at h; exact absurd h (by simp)
      | ok det =>
        rw [hdet] at h
        cases h
        exact findApprovedReview_fst_iff revs
  · cases hcom : api.listComments repo it.number with
    | error e => rw [hcom] at h; exact absurd h (by simp)
    | ok comms =>
      rw [hcom] at h
      cases h
      exact findApprovalComment_fst_iff comms

theorem mem_enrichItems (api : Api) (repo : String) (items : List ApiIssue)
    (rec : Issue) (h : rec ∈ enrichItems api repo items) :
    ∃ it, processItem api repo it = .ok rec := by
  induction items with
  | nil => simp [enrichItems] at h
  | cons it rest ih =>
    simp only [enrichItems] at h
    cases hp : processItem api repo it with
    | error e => rw [hp] at h; simp at h
    | ok r =>
      rw [hp] at h
      rcases List.mem_cons.mp h with h1 | h2
      · exact ⟨it, by rw [hp, h1]⟩
      · exact ih h2

theorem mem_fetchIssues (api : Api) (repo : String) (us : List String)
    (rec : Issue) (h : rec ∈ fetchIssues api repo us) :
    ∃ it, processItem api repo it = .ok rec := by
  rw [fetchIssues_eq] at h
  rcases List.mem_flatten.mp h with ⟨l, hl, hmem⟩
  rcases List.mem_map.mp hl with ⟨u, _, rfl⟩
  unfold userRecords at hmem
  cases hli : api.listIssues repo u with
  | error e => rw [hli] at hmem; simp at hmem
  | ok items => rw [hli] at hmem; exact mem_enrichItems api repo items rec hmem

theorem findApprovedReview_append (pre rest : List Review) (r : Review)
    (hpre : ∀ x ∈ pre, x.state ≠ "APPROVED") (hr : r.state = "APPROVED") :
    findApprovedReview (pre ++ r :: rest) = (true, some (loginOrUnknown r.user)) := by
  induction pre with
  | nil => simp [findApprovedReview, hr]
  | cons x xs ih =>
    have hx : x.state ≠ "APPROVED" := hpre x (by simp)
    simp only [List.cons_append, findApprovedReview, if_neg hx]
    exact ih (fun y hy => hpre y (by simp [hy]))

theorem findApprovalComment_append (pre rest : List Comment) (c : Comment)
    (hpre : ∀ x ∈ pre, commentMatches x = false) (hc : commentMatches c = true) :
    findApprovalComment (pre ++ c :: rest) = (true, some (loginOrUnknown c.user)) := by
  induction pre with
  | nil => simp [findApprovalComment, hc]
  | cons x xs ih =>
    have hx : commentMatches x = false := hpre x (by simp)
    simp only [List.cons_append, findApprovalComment, hx, Bool.false_eq_true,
      if_false]
    exact ih (fun y hy => hpre y (by simp [hy]))

theorem findApprovalComment_none (l : List Comment)
    (h : ∀ x ∈ l, commentMatches x = false) :
    findApprovalComment l = (false, none) := by
  induction l with
  | nil => rfl
  | cons c rest ih =>
    have hc : commentMatches c = false := h c (by simp)
    simp only [findApprovalComment, hc, Bool.false_eq_true, if_false]
    exact ih (fun y hy => h y (by simp [hy]))

theorem processItem_pr (api : Api) (repo : String) (it : ApiIssue)
    (revs : List Review) (det : PrDetails) (hpr : it.pull_request = true)
    (hrev : api.listReviews repo it.number = .ok revs)
    (hdet : api.prDetails repo it.number = .ok det) :
    processItem api repo it = .ok
      { repo := repo, number := it.number, title := it.title,
        html_url := it.html_url, approved := (findApprovedReview revs).1,
        approvedBy := (findApprovedReview revs).2,
        creator := loginOrUnknown it.user, merged := det.merged } := by
  unfold processItem
  rw [hpr, if_pos rfl, hrev, hdet]

theorem processItem_plain (api : Api) (repo : String) (it : ApiIssue)
    (comms : List Comment) (hpr : it.pull_request = false)
    (hcom : api.listComments repo it.number = .ok comms) :
    processItem api repo it = .ok
      { repo := repo, number := it.number, title := it.title,
        html_url := it.html_url, approved := (findApprovalComment comms).1,
        approvedBy := (findApprovalComment comms).2,
        creator := loginOrUnknown it.user, merged := false } := by
  unfold processItem
  rw [hpr]
  simp only [Bool.false_eq_true, if_false]
  rw [hcom]

/-! Cache-key analysis: when no username contains a comma, the key
`${repo}-${usernames.join(",")}` determines the username list. -/

theorem joinComma_data (l : List String) :
    (joinComma l).data = joinCharList (l.map String.data) := by
  induction l with
  | nil => rfl
  | cons u rest ih =>
    cases rest with
    | nil => rfl
    | cons v t =>
      simp only [joinComma, joinCharList, List.map]
      rw [String.data_append, String.data_append, ih]
      simp

theorem takeWhile_append_all (p : Char → Bool) (xs ys : List Char)
    (h : ∀ c ∈ xs, p c = true) :
    (xs ++ ys).takeWhile p = xs ++ ys.takeWhile p := by
  induction xs with
  | nil => simp
  | cons x t ih =>
    have hx : p x = true := h x (by simp)
    simp [List.takeWhile, hx, ih (fun c hc => h c (by simp [hc]))]

theorem dropWhile_append_all (p : Char → Bool) (xs ys : List Char)
    (h : ∀ c ∈ xs, p c = true) :
    (xs ++ ys).dropWhile p = ys.dropWhile p := by
  induction xs with
  | nil => simp
  | cons x t ih =>
    have hx : p x = true := h x (by simp)
    simp [List.dropWhile, hx, ih (fun c hc => h c (by simp [hc]))]

theorem joinCharList_inj (l1 : List (List Char)) :
    ∀ l2 : List (List Char), l1.length = l2.length →
    (∀ x ∈ l1, ',' ∉ x) → (∀ x ∈ l2, ',' ∉ x) →
    joinCharList l1 = joinCharList l2 → l1 = l2 := by
  induction l1 with
  | nil =>
    intro l2 hlen _ _ _
    cases l2 with
    | nil => rfl
    | cons y ys => simp at hlen
  | cons x xs ih =>
    intro l2 hlen h1 h2 heq
    cases l2 with
    | nil => simp at hlen
    | cons y ys =>
      cases xs with
      | nil =>
        cases ys with
        | nil => simpa [joinCharList] using heq
        | cons y2 yt => simp at hlen
      | cons x2 xt =>
        cases ys with
        | nil => simp at hlen
        | cons y2 yt =>
          simp only [joinCharList] at heq
          have hx : ∀ c ∈ x, (c != ',') = true := by
            intro c hc
            have : c ≠ ',' := fun he => h1 x (by simp) (he ▸ hc)
            simpa using this
          have hy : ∀ c ∈ y, (c != ',') = true := by
            intro c hc
            have : c ≠ ',' := fun he => h2 y (by simp) (he ▸ hc)
            simpa using this
          have hstop : ∀ J : List Char,
              List.takeWhile (fun c => c != ',') (',' :: J) = [] :=
            fun J => rfl
          have hkeep : ∀ J : List Char,
              List.dropWhile (fun c => c != ',') (',' :: J) = ',' :: J :=
            fun J => rfl
          have ht := congrArg (List.takeWhile (fun c => c != ',')) heq
          rw [takeWhile_append_all _ x _ hx, takeWhile_append_all _ y _ hy,
            hstop, hstop, List.append_nil, List.append_nil] at ht
          have hd := congrArg (List.dropWhile (fun c => c != ',')) heq
          rw [dropWhile_append_all _ x _ hx, dropWhile_append_all _ y _ hy,
            hkeep, hkeep] at hd
          have hd' : joinCharList (x2 :: xt) = joinCharList (y2 :: yt) :=
            (List.cons.injEq _ _ _ _ ▸ hd :
              ',' = ',' ∧ joinCharList (x2 :: xt) = joinCharList (y2 :: yt)).2
          have htails : x2 :: xt = y2 :: yt := by
            apply ih (y2 :: yt)
            · simpa using hlen
            · intro z hz; exact h1 z (by simp [hz])
            · intro z hz; exact h2 z (by simp [hz])
            · exact hd'
          rw [ht, htails]

theorem map_data_inj (l1 : List String) :
    ∀ l2 : List String, l1.map String.data = l2.map String.data → l1 = l2 := by
  induction l1 with
  | nil => intro l2 h; cases l2 with | nil => rfl | cons => simp at h
  | cons x xs ih =>
    intro l2 h
    cases l2 with
    | nil => simp at h
    | cons y ys =>
      simp only [List.map, List.cons.injEq] at h
      rw [String.ext h.1, ih ys h.2]

theorem joinComma_inj (l1 l2 : List String)
    (hlen : l1.length = l2.length)
    (h1 : ∀ u ∈ l1, noComma u = true) (h2 : ∀ u ∈ l2, noComma u = true)
    (heq : joinComma l1 = joinComma l2) : l1 = l2 := by
  apply map_data_inj
  apply joinCharList_inj
  · simp [hlen]
  · intro x hx
    rcases List.mem_map.mp hx with ⟨u, hu, rfl⟩
    exact of_decide_eq_true (h1 u hu)
  · intro x hx
    rcases List.mem_map.mp hx with ⟨u, hu, rfl⟩
    exact of_decide_eq_true (h2 u hu)
  · rw [← joinComma_data, ← joinComma_data, heq]

theorem cacheKey_inj_of_noComma (repo : String) (l1 l2 : List String)
    (hlen : l1.length = l2.length)
    (h1 : ∀ u ∈ l1, noComma u = true) (h2 : ∀ u ∈ l2, noComma u = true)
    (hne : l1 ≠ l2) : cacheKey repo l1 ≠ cacheKey repo l2 := by
  intro heq
  apply hne
  apply joinComma_inj l1 l2 hlen h1 h2
  apply String.ext
  have hdata := congrArg String.data heq
  unfold cacheKey at hdata
  rw [String.data_append, String.data_append, String.data_append,
    String.data_append] at hdata
  exact List.append_cancel_left hdata

theorem cacheFind_put_ne (c : Cache) (k1 k2 : String) (e : CacheEntry)
    (h : k1 ≠ k2) : cacheFind (cachePut c k1 e) k2 = cacheFind c k2 := by
  have hb : (k1 == k2) = false := beq_eq_false_iff_ne.mpr h
  simp [cacheFind, cachePut, List.find?, hb]

/-! Cache behaviour of getIssues. -/

theorem cacheFind_put_self (c : Cache) (k : String) (e : CacheEntry) :
    cacheFind (cachePut c k e) k = some e := by
  simp [cacheFind, cachePut, List.find?]

theorem getIssues_hit (api : Api) (cache : Cache) (now nowPut : Int)
    (repo : String) (usernames : List String) (entry : CacheEntry)
    (hfind : cacheFind cache (cacheKey repo usernames) = some entry)
    (hfresh : now - entry.timestamp < CACHE_DURATION) :
    getIssues api cache now nowPut repo usernames = (entry.data, cache) := by
  simp only [getIssues]
  rw [hfind]
  simp [hfresh]

theorem getIssues_miss (api : Api) (cache : Cache) (now nowPut : Int)
    (repo : String) (usernames : List String)
    (hmiss : ∀ entry, cacheFind cache (cacheKey repo usernames) = some entry →
      CACHE_DURATION ≤ now - entry.timestamp) :
    getIssues api cache now nowPut repo usernames =
      (fetchIssues api repo usernames,
       cachePut cache (cacheKey repo usernames)
         ⟨fetchIssues api repo usernames, nowPut⟩) := by
  simp only [getIssues]
  cases hfind : cacheFind cache (cacheKey repo usernames) with
  | none => rfl
  | some entry =>
    have hstale := hmiss entry hfind
    simp [not_lt.mpr hstale]

/-- Claim C4: for every key (repository, usernames), getIssues returns
the stored Issue list exactly when a cache entry exists for the key and
now - entry.timestamp < 5000 ms, and otherwise misses and runs the
pipeline, storing the result with the store-time clock reading; a get
immediately after a put returns the stored list with the cache
unchanged, and a get once 5000 ms have elapsed since the stored
timestamp misses, re-runs the pipeline and stores its result. -/
theorem claim_C4 :
    (∀ (api : Api) (cache : Cache) (now nowPut : Int) (repo : String)
        (usernames : List String) (entry : CacheEntry),
      cacheFind cache (cacheKey repo usernames) = some entry →
      now - entry.timestamp < CACHE_DURATION →
      getIssues api cache now nowPut repo usernames = (entry.data, cache)) ∧
    (∀ (api : Api) (cache : Cache) (now nowPut : Int) (repo : String)
        (usernames : List String),
      (∀ entry, cacheFind cache (cacheKey repo usernames) = some entry →
        CACHE_DURATION ≤ now - entry.timestamp) →
      getIssues api cache now nowPut repo usernames =
        (fetchIssues api repo usernames,
         cachePut cache (cacheKey repo usernames)
           ⟨fetchIssues api repo usernames, nowPut⟩)) ∧
    (∀ (api : Api) (cache : Cache) (t nowPut : Int) (repo : String)
        (usernames : List String) (X : List Issue),
      getIssues api (cachePut cache (cacheKey repo usernames) ⟨X, t⟩) t
        nowPut repo usernames =
        (X, cachePut cache (cacheKey repo usernames) ⟨X, t⟩)) ∧
    (∀ (api : Api) (cache : Cache) (t nowPut : Int) (repo : String)
        (usernames : List String) (X : List Issue),
      getIssues api (cachePut cache (cacheKey repo usernames) ⟨X, t⟩)
        (t + CACHE_DURATION) nowPut repo usernames =
        (fetchIssues api repo usernames,
         cachePut (cachePut cache (cacheKey repo usernames) ⟨X, t⟩)
           (cacheKey repo usernames)
           ⟨fetchIssues api repo usernames, nowPut⟩)) := by
  refine ⟨getIssues_hit, getIssues_miss, ?_, ?_⟩
  · intro api cache t nowPut repo usernames X
    exact getIssues_hit api _ t nowPut repo usernames ⟨X, t⟩
      (cacheFind_put_self cache _ _) (by simp [CACHE_DURATION])
  · intro api cache t nowPut repo usernames X
    apply getIssues_miss
    intro entry hf
    rw [cacheFind_put_self] at hf
    cases hf
    simp [CACHE_DURATION]

/-- Witness for C4: concrete fresh hit, concrete miss on an empty
cache, and a concrete get exactly 5000 ms after the put. -/
theorem claim_C4_witness :
    getIssues apiFail (cachePut [] (cacheKey "r" ["u"]) ⟨[sampleIssue], 0⟩)
        0 0 "r" ["u"] =
      ([sampleIssue], cachePut [] (cacheKey "r" ["u"]) ⟨[sampleIssue], 0⟩) ∧
    getIssues apiFail [] 0 0 "r" ["u"] =
      (fetchIssues apiFail "r" ["u"],
       cachePut [] (cacheKey "r" ["u"]) ⟨fetchIssues apiFail "r" ["u"], 0⟩) ∧
    getIssues apiFail (cachePut [] (cacheKey "r" ["u"]) ⟨[sampleIssue], 0⟩)
        (0 + CACHE_DURATION) 7 "r" ["u"] =
      (fetchIssues apiFail "r" ["u"],
       cachePut (cachePut [] (cacheKey "r" ["u"]) ⟨[sampleIssue], 0⟩)
         (cacheKey "r" ["u"]) ⟨fetchIssues apiFail "r" ["u"], 7⟩) ∧
    fetchIssues apiFail "r" ["u"] = [] :=
  ⟨claim_C4.1 apiFail (cachePut [] (cacheKey "r" ["u"]) ⟨[sampleIssue], 0⟩)
      0 0 "r" ["u"] ⟨[sampleIssue], 0⟩ (by decide) (by decide),
   claim_C4.2.1 apiFail [] 0 0 "r" ["u"]
      (fun entry he => by simp [cacheFind] at he),
   claim_C4.2.2.2 apiFail [] 0 7 "r" ["u"] [sampleIssue],
   rfl⟩

/-- Claim C10: a cache entry is written unconditionally at the end of
every miss run, even when every username's fetch failed or the
username list is empty; the empty result is stored with a fresh
timestamp and served as a hit for the next 5000 ms, even to a caller
whose remote API would now succeed. -/
theorem claim_C10 :
    getIssues apiFail [] 0 0 "r" ["u"] =
      ([], [(cacheKey "r" ["u"], ⟨[], 0⟩)]) ∧
    getIssues apiFail [] 0 0 "r" [] =
      ([], [(cacheKey "r" [], ⟨[], 0⟩)]) ∧
    (getIssues apiGood ([(cacheKey "r" ["u"], ⟨[], 0⟩)] : Cache)
      4999 4999 "r" ["u"]).1 = [] ∧
    fetchIssues apiGood "r" ["u"] ≠ [] := by
  refine ⟨rfl, rfl, rfl, ?_⟩
  decide

/-- Claim C9: the key derivation repo-join(usernames) is not injective:
distinct (repository, username-list) inputs collide, and such calls
serve each other's cached results within the freshness window. -/
theorem claim_C9 :
    cacheKey "zeppelin" ["a,b"] = cacheKey "zeppelin" ["a", "b"] ∧
    (["a,b"] : List String) ≠ ["a", "b"] ∧
    cacheKey "r" ["a-b"] = cacheKey "r-a" ["b"] ∧
    (("r", ["a-b"]) : String × List String) ≠ ("r-a", ["b"]) ∧
    (getIssues apiFail
      (cachePut [] (cacheKey "zeppelin" ["a,b"]) ⟨[sampleIssue], 0⟩)
      0 0 "zeppelin" ["a", "b"]).1 = [sampleIssue] ∧
    fetchIssues apiFail "zeppelin" ["a", "b"] = [] := by
  refine ⟨rfl, by decide, rfl, by decide, rfl, rfl⟩

/-- Counterexample to claim C7 as stated: the two distinct orderings
["a", "a,a"] and ["a,a", "a"] of the same username multiset derive the
same cache key, so they do share a cache entry. -/
theorem claim_C7_cex :
    (["a", "a,a"] : List String) ≠ ["a,a", "a"] ∧
    (["a", "a,a"] : List String).Perm ["a,a", "a"] ∧
    cacheKey "r" ["a", "a,a"] = cacheKey "r" ["a,a", "a"] ∧
    cacheFind (cachePut [] (cacheKey "r" ["a", "a,a"]) ⟨[sampleIssue], 0⟩)
      (cacheKey "r" ["a,a", "a"]) = some ⟨[sampleIssue], 0⟩ := by
  refine ⟨by decide, by decide, rfl, rfl⟩

/-- Claim C7 as amended: provided no username contains a comma, two
calls whose username lists contain the same names in different orders
(any two distinct equal-length lists) derive distinct cache keys and
therefore do not share a cache entry; username lists containing commas
may collide. -/
theorem claim_C7_amended (repo : String) (l1 l2 : List String)
    (h1 : ∀ u ∈ l1, noComma u = true) (h2 : ∀ u ∈ l2, noComma u = true)
    (hperm : l1.Perm l2) (hne : l1 ≠ l2) :
    cacheKey repo l1 ≠ cacheKey repo l2 ∧
    ∀ (c : Cache) (e : CacheEntry),
      cacheFind (cachePut c (cacheKey repo l1) e) (cacheKey repo l2) =
        cacheFind c (cacheKey repo l2) := by
  have hkey := cacheKey_inj_of_noComma repo l1 l2 hperm.length_eq h1 h2 hne
  exact ⟨hkey, fun c e => cacheFind_put_ne c _ _ e hkey⟩

/-- Witness for the amended C7 at the spec's example: ["a","b"] versus
["b","a"] under repository "zeppelin". -/
theorem claim_C7_witness :
    cacheKey "zeppelin" ["a", "b"] ≠ cacheKey "zeppelin" ["b", "a"] ∧
    cacheFind
      (cachePut [] (cacheKey "zeppelin" ["a", "b"]) ⟨[sampleIssue], 0⟩)
      (cacheKey "zeppelin" ["b", "a"]) = none :=
  ⟨(claim_C7_amended "zeppelin" ["a", "b"] ["b", "a"] (by decide) (by decide)
      (by decide) (by decide)).1,
   ((claim_C7_amended "zeppelin" ["a", "b"] ["b", "a"] (by decide) (by decide)
      (by decide) (by decide)).2 [] ⟨[sampleIssue], 0⟩).trans rfl⟩

/-- Claim C5: for every Issue record produced by the pipeline,
approvedBy is non-null if and only if approved is true. -/
theorem claim_C5 (api : Api) (repo : String) (usernames : List String)
    (rec : Issue) (h : rec ∈ fetchIssues api repo usernames) :
    (rec.approved = true ↔ rec.approvedBy ≠ none) := by
  rcases mem_fetchIssues api repo usernames rec h with ⟨it, hit⟩
  exact processItem_ok_inv api repo it rec hit

/-- Witness for C5 on the record apiGood produces. -/
theorem claim_C5_witness :
    ((⟨"r", 1, "t", "h", true, some "c", "u", false⟩ : Issue).approved = true ↔
      (⟨"r", 1, "t", "h", true, some "c", "u", false⟩ : Issue).approvedBy ≠
        none) :=
  claim_C5 apiGood "r" ["u"] ⟨"r", 1, "t", "h", true, some "c", "u", false⟩
    (by decide)

/-- Claim C6: a record produced from an item without the pull_request
marker has merged = false; for a pull-request item, merged is read
directly from the pull request's detail record. -/
theorem claim_C6 :
    (∀ (api : Api) (repo : String) (it : ApiIssue) (rec : Issue),
      it.pull_request = false → processItem api repo it = .ok rec →
      rec.merged = false) ∧
    (∀ (api : Api) (repo : String) (it : ApiIssue) (revs : List Review)
        (det : PrDetails) (rec : Issue),
      it.pull_request = true →
      api.listReviews repo it.number = .ok revs →
      api.prDetails repo it.number = .ok det →
      processItem api repo it = .ok rec →
      rec.merged = det.merged) := by
  constructor
  · intro api repo it rec hpr h
    unfold processItem at h
    rw [hpr] at h
    simp only [Bool.false_eq_true, if_false] at h
    cases hcom : api.listComments repo it.number with
    | error e => rw [hcom] at h; exact absurd h (by simp)
    | ok comms => rw [hcom] at h; cases h; rfl
  · intro api repo it revs det rec hpr hrev hdet h
    rw [processItem_pr api repo it revs det hpr hrev hdet] at h
    cases h
    rfl

/-- Witness for C6: a concrete plain issue and a concrete merged pull
request. -/
theorem claim_C6_witness :
    (⟨"r", 1, "t", "h", true, some "c", "u", false⟩ : Issue).merged = false ∧
    (⟨"r", 7, "t7", "h7", true, some "A", "u", true⟩ : Issue).merged =
      (⟨true⟩ : PrDetails).merged :=
  ⟨claim_C6.1 apiGood "r" ⟨1, "t", "h", some "u", false⟩
      ⟨"r", 1, "t", "h", true, some "c", "u", false⟩ rfl rfl,
   claim_C6.2 apiPr "r" ⟨7, "t7", "h7", some "u", true⟩
      [⟨"COMMENTED", some "C"⟩, ⟨"APPROVED", some "A"⟩,
       ⟨"APPROVED", some "B"⟩]
      ⟨true⟩ ⟨"r", 7, "t7", "h7", true, some "A", "u", true⟩ rfl rfl rfl rfl⟩

/-- Claim C2: for a plain issue the comments are scanned in API order;
the first comment whose body contains the case-insensitive substring
"approve" sets approved = true and approvedBy = that commenter's login
(or "unknown" if the login is absent); "please disapprove" also
matches; with no matching comment the scan yields (false, none); the
per-item pipeline uses exactly this scan for plain issues. -/
theorem claim_C2 :
    (∀ (pre rest : List Comment) (c : Comment),
      (∀ x ∈ pre, commentMatches x = false) → commentMatches c = true →
      findApprovalComment (pre ++ c :: rest) =
        (true, some (loginOrUnknown c.user))) ∧
    (∀ u : Option String,
      (u = none → loginOrUnknown u = "unknown") ∧
      ∀ s, u = some s → s ≠ "" → loginOrUnknown u = s) ∧
    (∀ l : List Comment, (∀ x ∈ l, commentMatches x = false) →
      findApprovalComment l = (false, none)) ∧
    (∀ (api : Api) (repo : String) (it : ApiIssue) (comms : List Comment),
      it.pull_request = false →
      api.listComments repo it.number = .ok comms →
      processItem api repo it = .ok
        { repo := repo, number := it.number, title := it.title,
          html_url := it.html_url,
          approved := (findApprovalComment comms).1,
          approvedBy := (findApprovalComment comms).2,
          creator := loginOrUnknown it.user, merged := false }) ∧
    findApprovalComment [⟨some "please disapprove", some "bob"⟩] =
      (true, some "bob") := by
  refine ⟨findApprovalComment_append, ?_, findApprovalComment_none,
    processItem_plain, by decide⟩
  intro u
  constructor
  · intro h; rw [h]; rfl
  · intro s hs hne; rw [hs]; simp [loginOrUnknown, hne]

/-- Witness for C2: a later comment matches after a non-matching one, a
non-matching list yields (false, none), and apiGood's plain issue goes
through the comment scan. -/
theorem claim_C2_witness :
    findApprovalComment
      ([⟨some "looks good", some "x"⟩] ++
        ⟨some "I APPROVE this", some "y"⟩ :: []) =
      (true, some (loginOrUnknown (some "y"))) ∧
    findApprovalComment [⟨some "nice", some "x"⟩] = (false, none) ∧
    processItem apiGood "r" ⟨1, "t", "h", some "u", false⟩ = .ok
      { repo := "r", number := 1, title := "t", html_url := "h",
        approved := (findApprovalComment [⟨some "approve", some "c"⟩]).1,
        approvedBy := (findApprovalComment [⟨some "approve", some "c"⟩]).2,
        creator := loginOrUnknown (some "u"), merged := false } :=
  ⟨claim_C2.1 [⟨some "looks good", some "x"⟩] []
      ⟨some "I APPROVE this", some "y"⟩ (by decide) (by decide),
   claim_C2.2.2.1 [⟨some "nice", some "x"⟩] (by decide),
   claim_C2.2.2.2.1 apiGood "r" ⟨1, "t", "h", some "u", false⟩
      [⟨some "approve", some "c"⟩] rfl rfl⟩

/-- Claim C3: for a pull-request item the reviews are scanned in API
order; the first review with state "APPROVED" determines approved =
true and approvedBy = that reviewer's login (or "unknown" if the
reviewer identity is absent); later approvals are ignored, so
[COMMENTED, APPROVED(A), APPROVED(B)] yields approvedBy = "A"; the
per-item pipeline uses exactly this scan for pull requests. -/
theorem claim_C3 :
    (∀ (pre rest : List Review) (r : Review),
      (∀ x ∈ pre, x.state ≠ "APPROVED") → r.state = "APPROVED" →
      findApprovedReview (pre ++ r :: rest) =
        (true, some (loginOrUnknown r.user))) ∧
    (∀ u : Option String,
      (u = none → loginOrUnknown u = "unknown") ∧
      ∀ s, u = some s → s ≠ "" → loginOrUnknown u = s) ∧
    (∀ (api : Api) (repo : String) (it : ApiIssue) (revs : List Review)
        (det : PrDetails),
      it.pull_request = true →
      api.listReviews repo it.number = .ok revs →
      api.prDetails repo it.number = .ok det →
      processItem api repo it = .ok
        { repo := repo, number := it.number, title := it.title,
          html_url := it.html_url,
          approved := (findApprovedReview revs).1,
          approvedBy := (findApprovedReview revs).2,
          creator := loginOrUnknown it.user, merged := det.merged }) ∧
    findApprovedReview
      [⟨"COMMENTED", some "C"⟩, ⟨"APPROVED", some "A"⟩,
       ⟨"APPROVED", some "B"⟩] = (true, some "A") := by
  refine ⟨findApprovedReview_append, ?_, processItem_pr, by decide⟩
  intro u
  constructor
  · intro h; rw [h]; rfl
  · intro s hs hne; rw [hs]; simp [loginOrUnknown, hne]

/-- Witness for C3 at the spec's review list and at apiPr. -/
theorem claim_C3_witness :
    findApprovedReview
      ([⟨"COMMENTED", some "C"⟩] ++ ⟨"APPROVED", some "A"⟩ ::
        [⟨"APPROVED", some "B"⟩]) =
      (true, some (loginOrUnknown (some "A"))) ∧
    processItem apiPr "r" ⟨7, "t7", "h7", some "u", true⟩ = .ok
      { repo := "r", number := 7, title := "t7", html_url := "h7",
        approved := (findApprovedReview
          [⟨"COMMENTED", some "C"⟩, ⟨"APPROVED", some "A"⟩,
           ⟨"APPROVED", some "B"⟩]).1,
        approvedBy := (findApprovedReview
          [⟨"COMMENTED", some "C"⟩, ⟨"APPROVED", some "A"⟩,
           ⟨"APPROVED", some "B"⟩]).2,
        creator := loginOrUnknown (some "u"),
        merged := (⟨true⟩ : PrDetails).merged } :=
  ⟨claim_C3.1 [⟨"COMMENTED", some "C"⟩] [⟨"APPROVED", some "B"⟩]
      ⟨"APPROVED", some "A"⟩ (by decide) rfl,
   claim_C3.2.2.1 apiPr "r" ⟨7, "t7", "h7", some "u", true⟩
      [⟨"COMMENTED", some "C"⟩, ⟨"APPROVED", some "A"⟩,
       ⟨"APPROVED", some "B"⟩] ⟨true⟩ rfl rfl rfl⟩

/-- Claim C8: the pipeline preserves input order: the result is the
concatenation of each username's records in the order the usernames
were given, and within one username (when no item errors) the records
follow the API order of the items, with no reordering. -/
theorem claim_C8 :
    (∀ (api : Api) (repo : String) (usernames : List String),
      fetchIssues api repo usernames =
        (usernames.map (userRecords api repo)).flatten) ∧
    (∀ (api : Api) (repo : String) (items : List ApiIssue),
      (∀ it ∈ items, (exceptOk (processItem api repo it)).isSome) →
      enrichItems api repo items =
        items.filterMap (fun it => exceptOk (processItem api repo it))) := by
  refine ⟨fetchIssues_eq, ?_⟩
  intro api repo items h
  induction items with
  | nil => simp [enrichItems]
  | cons it rest ih =>
    have hhead := h it (by simp)
    cases hp : processItem api repo it with
    | error e => rw [hp] at hhead; simp [exceptOk] at hhead
    | ok r =>
      rw [List.filterMap_cons]
      simp only [enrichItems, hp, exceptOk]
      exact congrArg (r :: ·) (ih (fun x hx => h x (by simp [hx])))

/-- Witness for C8 on apiGood's single item. -/
theorem claim_C8_witness :
    enrichItems apiGood "r" [⟨1, "t", "h", some "u", false⟩] =
      List.filterMap (fun it => exceptOk (processItem apiGood "r" it))
        [⟨1, "t", "h", some "u", false⟩] :=
  claim_C8.2 apiGood "r" [⟨1, "t", "h", some "u", false⟩] (by decide)

/-- Counterexample to claim C1 as stated: with apiPartial, processing
username u1 raises an error (the comment fetch of its second issue
throws), yet u1's first record still appears in the returned list, so
u1's contribution is not entirely omitted. -/
theorem claim_C1_cex :
    apiPartial.listComments "r" 2 = .error "boom" ∧
    processItem apiPartial "r" ⟨2, "t2", "h2", some "u1", false⟩ =
      .error "boom" ∧
    fetchIssues apiPartial "r" ["u1", "u2"] =
      [⟨"r", 1, "t1", "h1", false, none, "u1", false⟩,
       ⟨"r", 3, "t3", "h3", false, none, "u2", false⟩] ∧
    (⟨"r", 1, "t1", "h1", false, none, "u1", false⟩ : Issue) ∈
      fetchIssues apiPartial "r" ["u1", "u2"] ∧
    (⟨"r", 1, "t1", "h1", false, none, "u1", false⟩ : Issue).creator =
      "u1" :=
  ⟨rfl, rfl, by decide, by decide, rfl⟩

/-- Claim C1 as amended: an error while processing one username is
caught and never aborts the whole repository fetch — every other
username's records appear unchanged; if the username's issue-list
fetch itself errors, its whole contribution is omitted; if an error
occurs while enriching one of its items, only that item and the
remaining items of that username are omitted, while its records built
before the error are kept. -/
theorem claim_C1_amended :
    (∀ (api : Api) (repo : String) (us1 : List String) (u : String)
        (us2 : List String),
      fetchIssues api repo (us1 ++ u :: us2) =
        fetchIssues api repo us1 ++ userRecords api repo u ++
          fetchIssues api repo us2) ∧
    (∀ (api : Api) (repo : String) (u : String),
      (∃ e, api.listIssues repo u = .error e) →
      userRecords api repo u = []) ∧
    (∀ (api : Api) (repo : String) (pre : List ApiIssue) (bad : ApiIssue)
        (rest : List ApiIssue),
      (∀ it ∈ pre, (exceptOk (processItem api repo it)).isSome) →
      exceptOk (processItem api repo bad) = none →
      enrichItems api repo (pre ++ bad :: rest) =
        enrichItems api repo pre) := by
  refine ⟨?_, ?_, ?_⟩
  · intro api repo us1 u us2
    rw [fetchIssues_eq, fetchIssues_eq, fetchIssues_eq]
    simp
  · intro api repo u h
    obtain ⟨e, he⟩ := h
    unfold userRecords
    rw [he]
  · intro api repo pre bad rest hpre hbad
    induction pre with
    | nil =>
      cases hp : processItem api repo bad with
      | error er => simp [enrichItems, hp]
      | ok r => rw [hp] at hbad; simp [exceptOk] at hbad
    | cons x xs ih =>
      have hx := hpre x (by simp)
      cases hpx : processItem api repo x with
      | error er => rw [hpx] at hx; simp [exceptOk] at hx
      | ok r =>
        simp only [List.cons_append, enrichItems, hpx]
        exact congrArg (r :: ·) (ih (fun y hy => hpre y (by simp [hy])))

/-- Witness for the amended C1 at apiPartial and apiFail. -/
theorem claim_C1_witness :
    fetchIssues apiPartial "r" (["u1"] ++ "u2" :: []) =
      fetchIssues apiPartial "r" ["u1"] ++ userRecords apiPartial "r" "u2" ++
        fetchIssues apiPartial "r" [] ∧
    userRecords apiFail "r" "u" = [] ∧
    enrichItems apiPartial "r"
      ([⟨1, "t1", "h1", some "u1", false⟩] ++
        ⟨2, "t2", "h2", some "u1", false⟩ :: []) =
      enrichItems apiPartial "r" [⟨1, "t1", "h1", some "u1", false⟩] :=
  ⟨claim_C1_amended.1 apiPartial "r" ["u1"] "u2" [],
   claim_C1_amended.2.1 apiFail "r" "u" ⟨"fail", rfl⟩,
   claim_C1_amended.2.2 apiPartial "r" [⟨1, "t1", "h1", some "u1", false⟩]
      ⟨2, "t2", "h2", some "u1", false⟩ [] (by decide) rfl⟩
